import Mathlib

/-!
Verification of the cloud-debug-nodejs debug agent.

This file gives a shallow embedding, in Lean 4, of the parts of the agent
that the checked properties are about:

* `SourceMapper.mappingInfo` (src/agent/sourcemapper.ts),
* `InspectorDebugApi.set` / `setInternal` / `clear` / `log` /
  `captureBreakpointData` / `handleDebugPausedEvent` (src/agent/v8inspector.ts),
* `Debuglet.format`, the Debuglet expiry loop, and the capture engine, whose
  sources are not part of the provided tree and are therefore modelled from
  the specification text.

External collaborators (the V8 inspector session, the acorn parse step, the
file scanner results) are abstracted as explicit environment parameters so
that the control flow of the embedded functions can stay literal.
-/

namespace CloudDebug

/-- JS truthiness of an optional string: undefined, null and the empty
string are falsy, every other string is truthy. -/
def strTruthy : Option String → Bool
  | none => false
  | some s => !(s.isEmpty)

/-- JS truthiness of an optional number (undefined and 0 are falsy). -/
def natTruthy : Option Nat → Bool
  | none => false
  | some n => n != 0

/-! ## SourceMapper (src/agent/sourcemapper.ts) -/

namespace SourceMapper

/-- A generated position as produced by the source-map library consumer.
The library type `Position` has exactly a one-based `line` field and a
zero-based `column` field. -/
structure GenPos where
  line : Nat
  column : Nat
deriving Repr, DecidableEq

/-- The consumer of one source map, abstracted to the two query operations
`sourcemapper.ts` uses: `allGeneratedPositionsFor` and
`generatedPositionFor`.  Both take the one-based input line and zero-based
input column that `mappingInfo` builds into `sourcePos`. -/
structure Consumer where
  allGeneratedPositionsFor : Nat → Nat → List GenPos
  generatedPositionFor : Nat → Nat → GenPos

/-- One entry of `SourceMapper.infoMap_` (interface `MapInfoInput`). -/
structure MapInfoInput where
  outputFile : String
  mapFile : String
  mapConsumer : Consumer

/-- The result record of `mappingInfo` (interface `MapInfoOutput`).  In the
source the `column` attribute is optional, hence `Option Nat` here. -/
structure MapInfoOutput where
  file : String
  line : Nat
  column : Option Nat
deriving Repr, DecidableEq

/-- The mapper state: `infoMap_` as an association list from (normalized)
input path to its `MapInfoInput` entry.  Paths are taken as already
normalized strings; `path.normalize` is the identity on them. -/
structure Mapper where
  infoMap : List (String × MapInfoInput)

/-- Lookup of `infoMap_.get(inputPath)`. -/
def Mapper.get (m : Mapper) (inputPath : String) : Option MapInfoInput :=
  (m.infoMap.find? (fun e => e.1 == inputPath)).map (·.2)

/-- Embedding of `hasMappingInfo`: `infoMap_.has(path.normalize(inputPath))`. -/
def Mapper.hasMappingInfo (m : Mapper) (inputPath : String) : Bool :=
  (m.get inputPath).isSome

/-- The source reads `(mappedPos as any).col`.  The value produced by the
source-map library only carries `line` and `column` fields, so this JS
property access evaluates to `undefined`; the embedding makes that explicit. -/
def readColField (_ : GenPos) : Option Nat := none

/-- The `Array.prototype.reduce` call of `mappingInfo`: the first element
is the initial accumulator, and an element replaces the accumulator
exactly when its `line` is strictly smaller, so the earliest element among
those with the minimal line wins. -/
def reduceMinLine (p : GenPos) (rest : List GenPos) : GenPos :=
  rest.foldl (fun accumulator value =>
    if value.line < accumulator.line then value else accumulator) p

/-- Embedding of `SourceMapper.mappingInfo` (sourcemapper.ts:166-217).
Looks up the consumer entry, queries `allGeneratedPositionsFor` at the
one-based line `lineNumber + 1` and zero-based column, reduces the result
list to the entry with the smallest `line` (`Array.prototype.reduce` with
the first element as the initial accumulator, keeping the earlier entry on
ties), falls back to `generatedPositionFor` when the list is empty, and
converts the one-based line back to zero-based. -/
def Mapper.mappingInfo (m : Mapper) (inputPath : String) (lineNumber : Nat)
    (colNumber : Nat) : Option MapInfoOutput :=
  match m.get inputPath with
  | none => none
  | some entry =>
    let allPos := entry.mapConsumer.allGeneratedPositionsFor (lineNumber + 1) colNumber
    let mappedPos : GenPos :=
      match allPos with
      | [] => entry.mapConsumer.generatedPositionFor (lineNumber + 1) colNumber
      | p :: rest => reduceMinLine p rest
    some { file := entry.outputFile
           line := mappedPos.line - 1
           column := readColField mappedPos }

end SourceMapper

/-! ## Debuglet.format

The Debuglet source file is not part of the provided tree (only its test
file is), so the formatter is modelled from the specification. -/

namespace Debuglet

/-- Digit run to a number, most significant digit first. -/
def digitsToNat (ds : List Char) : Nat :=
  ds.foldl (fun n c => 10 * n + (c.toNat - 48)) 0

/-- Helper bound used for the termination of `fmtRun`. -/
theorem dropWhileLenLe (p : Char → Bool) :
    ∀ l : List Char, (l.dropWhile p).length ≤ l.length := by
  intro l
  induction l with
  | nil => simp [List.dropWhile]
  | cons c rest ih =>
    by_cases h : p c
    · simp [List.dropWhile, h]
      omega
    · simp [List.dropWhile, h]

/-- Modelled from the spec: the missing `Debuglet.format` placeholder
substitution.  Scans the template left to right; `$$` emits a literal `$`;
`$` followed by a digit run (digits consumed greedily) substitutes the
argument at that index when in range and keeps the placeholder as literal
text when out of range; substituted text is not rescanned. -/
def fmtRun (args : List String) : List Char → List Char
  | [] => []
  | ['$'] => ['$']
  | '$' :: '$' :: rest => '$' :: fmtRun args rest
  | '$' :: c :: rest =>
    if h : c.isDigit then
      let ds := (c :: rest).takeWhile Char.isDigit
      let tl := (c :: rest).dropWhile Char.isDigit
      (match args.get? (digitsToNat ds) with
       | some a => a.data
       | none => '$' :: ds) ++ fmtRun args tl
    else
      '$' :: c :: fmtRun args rest
  | c :: rest => c :: fmtRun args rest
termination_by l => l.length
decreasing_by
  all_goals simp only [List.dropWhile_cons, List.length_cons]
  all_goals try omega
  all_goals simp only [h, if_true]
  all_goals have := dropWhileLenLe Char.isDigit rest
  all_goals omega

/-- Modelled from the spec: `Debuglet.format(base, exps)` over string
arguments (the agent stringifies the evaluated expressions before
formatting). -/
def format (base : String) (args : List String) : String :=
  String.mk (fmtRun args base.data)

end Debuglet

/-! ## Condition ASTs and the expression validator

The validator module (`validator.js`) is not part of the provided tree;
`isValid` below is modelled from the specification.  The acorn parse step
is an external library call and is abstracted as an environment function
`parse : String → Option Ast` (`none` models a thrown `SyntaxError`). -/

/-- Abstract syntax of parsed condition expressions.  Sequencing of
statements, array elements and template substitutions is represented by
`seqNode`/`nilNode` chains so that all recursion stays structural.  A
`callExpr` carries whether its callee statically resolves to a read-only
intrinsic, which is the property the validator checks on calls. -/
inductive Ast where
  | program (body : Ast)
  | seqNode (a b : Ast)
  | nilNode
  | emptyStmt
  | exprStmt (e : Ast)
  | ident (s : String)
  | lit (s : String)
  | regexLit
  | binop (l r : Ast)
  | ternary (c t f : Ast)
  | member (o p : Ast)
  | arrayLit (elems : Ast)
  | spread (e : Ast)
  | templateLit (subs : Ast)
  | callExpr (callee : Ast) (args : Ast) (readOnlyIntrinsic : Bool)
  | assign (l r : Ast)
  | update (e : Ast)
  | varDecl (s : String)
  | funcDecl
  | funcExpr
  | arrowExpr
  | newExpr (callee : Ast)
  | whileStmt (c b : Ast)
  | returnStmt
  | throwStmt (e : Ast)
  | tryStmt (b : Ast)
  | debuggerStmt
  | blockStmt (b : Ast)
deriving Repr, DecidableEq

/-- Modelled from the spec: the missing expression validator
(`validator.isValid`).  Walks the AST and rejects every construct that
could mutate observable state: assignment operators, increment and
decrement, variable and function declarations, `new`, function and arrow
expressions, control-flow statements, template substitutions containing a
disallowed subform, and calls whose callees are not statically resolvable
to read-only intrinsics. -/
def isValid : Ast → Bool
  | .program body => isValid body
  | .seqNode a b => isValid a && isValid b
  | .nilNode => true
  | .emptyStmt => true
  | .exprStmt e => isValid e
  | .ident _ => true
  | .lit _ => true
  | .regexLit => true
  | .binop l r => isValid l && isValid r
  | .ternary c t f => isValid c && isValid t && isValid f
  | .member o p => isValid o && isValid p
  | .arrayLit elems => isValid elems
  | .spread e => isValid e
  | .templateLit subs => isValid subs
  | .callExpr callee args readOnly => readOnly && isValid callee && isValid args
  | .assign _ _ => false
  | .update _ => false
  | .varDecl _ => false
  | .funcDecl => false
  | .funcExpr => false
  | .arrowExpr => false
  | .newExpr _ => false
  | .whileStmt _ _ => false
  | .returnStmt => false
  | .throwStmt _ => false
  | .tryStmt _ => false
  | .debuggerStmt => false
  | .blockStmt b => isValid b

/-! ## InspectorDebugApi.set / setInternal (src/agent/v8inspector.ts) -/

/-- The `refersTo` values of `StatusMessage` used by the agent. -/
inductive RefersTo where
  | UNSPECIFIED
  | BREAKPOINT_SOURCE_LOCATION
  | BREAKPOINT_CONDITION
  | BREAKPOINT_EXPRESSION
  | VARIABLE_NAME
  | VARIABLE_VALUE
deriving Repr, DecidableEq

/-- Error message identifiers from the missing `utils.messages` table; the
claims only depend on the `refersTo` category, so the identifiers stand in
for the full texts. -/
inductive ErrMsg where
  | INVALID_BREAKPOINT
  | COULD_NOT_FIND_OUTPUT_FILE
  | ERROR_COMPILING_CONDITION
  | SYNTAX_ERROR_IN_CONDITION
  | DISALLOWED_EXPRESSION
  | SOURCE_FILE_NOT_FOUND
  | SOURCE_FILE_AMBIGUOUS
  | INVALID_LINE_NUMBER
  | V8_BREAKPOINT_ERROR
  | V8_BREAKPOINT_CLEAR_ERROR
  | V8_BREAKPOINT_DISABLED
  | CAPTURE_BREAKPOINT_DATA
deriving Repr, DecidableEq

/-- Suffix test on the characters of a string (the
`baseScriptPath.endsWith` call of `set`). -/
def strEndsWith (s suffix : String) : Bool :=
  suffix.data.isSuffixOf s.data

/-- A breakpoint source location: `path`, one-based `line`, optional
`column`.  Line `0` plays the role of a falsy `line` field. -/
structure SourceLocation where
  path : String
  line : Nat
  column : Option Nat := none
deriving Repr, DecidableEq

/-- The slice of an API breakpoint that `set` inspects. -/
structure Breakpoint where
  id : Option String
  location : Option SourceLocation
  condition : Option String := none
deriving Repr, DecidableEq

/-- What a successful `setInternal` hands to
`v8Inspector.setBreakpointByUrl` and stores: the matched script, the
zero-based line and column of the low-level call, and the condition string
passed through (or `undefined`). -/
structure Installed where
  script : String
  lowLevelLine : Nat
  lowLevelColumn : Nat
  v8Condition : Option String
deriving Repr, DecidableEq

/-- Outcome of `set`: either `setErrorStatusAndCallback` with a status
`refersTo` and message, or success with the installed data. -/
inductive SetResult where
  | err (refersTo : RefersTo) (msg : ErrMsg)
  | ok (installed : Installed)
deriving Repr, DecidableEq

/-- The environment `set`/`setInternal` runs in: the source mapper state,
the scanned file stats (`lines` is the recorded line count of a script),
the `utils.findScripts` lookup, the acorn parse of condition strings, the
optional breakpoint compiler for transpiled sources, the result of the
module-wrap computation, and whether the low-level
`Debugger.setBreakpointByUrl` call succeeds.  Paths are taken as already
normalized. -/
structure SetEnv where
  mapper : SourceMapper.Mapper
  findScripts : String → List String
  lines : String → Nat
  parse : String → Option Ast
  compiler : Option (String → Option String) := none
  moduleWrapPrefixLength : Nat := 62
  v8SetOk : Bool := true

/-- Embedding of `InspectorDebugApi.setInternal` (v8inspector.ts:317-421).
Validates the condition (parse + `validator.isValid`), resolves the script
through `utils.findScripts`, rejects when no or several scripts match or
when `breakpoint.location.line >= fileStats[matchingScript].lines`,
computes the zero-based low-level line and column (with the line-1
module-wrap column shift), and performs the low-level set. -/
def setInternal (env : SetEnv) (bp : Breakpoint)
    (mapInfo : Option SourceMapper.MapInfoOutput) : SetResult :=
  let conditionStep : Option (RefersTo × ErrMsg) :=
    match bp.condition with
    | some c =>
      if c.isEmpty then none
      else
        match env.parse c with
        | none => some (.BREAKPOINT_CONDITION, .SYNTAX_ERROR_IN_CONDITION)
        | some ast =>
          if isValid ast then none
          else some (.BREAKPOINT_CONDITION, .DISALLOWED_EXPRESSION)
    | none => none
  match conditionStep with
  | some (r, m) => .err r m
  | none =>
    let loc := bp.location.getD { path := "", line := 0 }
    let scripts := env.findScripts (match mapInfo with
      | some mi => mi.file
      | none => loc.path)
    match scripts with
    | [] => .err .BREAKPOINT_SOURCE_LOCATION .SOURCE_FILE_NOT_FOUND
    | [matchingScript] =>
      if loc.line ≥ env.lines matchingScript then
        .err .BREAKPOINT_SOURCE_LOCATION .INVALID_LINE_NUMBER
      else
        let column :=
          match mapInfo with
          | some mi => if natTruthy mi.column then mi.column.getD 0
                       else (if natTruthy loc.column then loc.column.getD 0 else 1)
          | none => if natTruthy loc.column then loc.column.getD 0 else 1
        let line :=
          match mapInfo with
          | some mi => mi.line
          | none => loc.line
        let column :=
          if line = 1 then column + (env.moduleWrapPrefixLength - 1) else column
        let v8Condition :=
          if strTruthy bp.condition then bp.condition else none
        if env.v8SetOk then
          .ok { script := matchingScript
                lowLevelLine := line - 1
                lowLevelColumn := column - 1
                v8Condition := v8Condition }
        else .err .BREAKPOINT_SOURCE_LOCATION .V8_BREAKPOINT_ERROR
    | _ => .err .BREAKPOINT_SOURCE_LOCATION .SOURCE_FILE_AMBIGUOUS

/-- Embedding of `InspectorDebugApi.set` (v8inspector.ts:169-207).
Rejects malformed breakpoints with `UNSPECIFIED`, dispatches on
`sourcemapper.hasMappingInfo`: without mapping info a non-`js` path is
rejected with `BREAKPOINT_SOURCE_LOCATION`, otherwise `setInternal` runs
without map info; with mapping info the condition is first compiled when a
breakpoint compiler exists, and `setInternal` runs with the map info. -/
def setBp (env : SetEnv) (bp : Breakpoint) : SetResult :=
  match bp.id, bp.location with
  | none, _ => .err .UNSPECIFIED .INVALID_BREAKPOINT
  | some _, none => .err .UNSPECIFIED .INVALID_BREAKPOINT
  | some _, some loc =>
    if loc.path.isEmpty ∨ loc.line = 0 then
      .err .UNSPECIFIED .INVALID_BREAKPOINT
    else if !(env.mapper.hasMappingInfo loc.path) then
      if !(strEndsWith loc.path "js") then
        .err .BREAKPOINT_SOURCE_LOCATION .COULD_NOT_FIND_OUTPUT_FILE
      else
        setInternal env bp none
    else
      let mapInfo := env.mapper.mappingInfo loc.path loc.line 0
      match env.compiler, bp.condition with
      | some compile, some c =>
        if !(c.isEmpty) then
          match compile c with
          | some compiled =>
            setInternal env { bp with condition := some compiled } mapInfo
          | none => .err .BREAKPOINT_CONDITION .ERROR_COMPILING_CONDITION
        else setInternal env bp mapInfo
      | _, _ => setInternal env bp mapInfo

/-! ## InspectorDebugApi.captureBreakpointData: the watch-expression path
(v8inspector.ts:450-509) -/

/-- Embedding of the compile loop over `breakpoint.expressions`
(v8inspector.ts:458-477).  `i` is the loop index over the mutating array.
On a successful compile the element is replaced in place; on a thrown
compile error the failed source is recorded and the element is spliced
out, after which the loop increment skips the element that shifted into
slot `i`.  Returns the final expressions array and the recorded failures
in encounter order. -/
def compileLoop (compile : String → Option String) (i : Nat)
    (exprs : List String) : List String × List String :=
  if h : i < exprs.length then
    match compile (exprs.get ⟨i, h⟩) with
    | some compiled => compileLoop compile (i + 1) (exprs.set i compiled)
    | none =>
      let out := compileLoop compile (i + 1) (exprs.eraseIdx i)
      (out.1, exprs.get ⟨i, h⟩ :: out.2)
  else (exprs, [])
termination_by exprs.length - i
decreasing_by
  · simp only [List.length_set]
    omega
  · have : (exprs.eraseIdx i).length = exprs.length - 1 :=
      List.length_eraseIdx_of_lt h
    omega

/-- One slot of `breakpoint.evaluatedExpressions`.  `compileError` is the
Variable with status `Error Compiling Expression` that the loop pushes for
a failed compile; `evaluated` stands for the single entry that the capture
engine produces for one (possibly compiled) expression source.  The
capture engine itself (`state.capture`) is not part of the provided tree;
modelled from the spec, it maps each expression of the array, in order, to
exactly one entry. -/
inductive ExprEntry where
  | compileError (name : String)
  | evaluated (source : String)
deriving Repr, DecidableEq

/-- Embedding of how `captureBreakpointData` builds
`breakpoint.evaluatedExpressions` for a CAPTURE breakpoint with
expressions: when a breakpoint compiler exists the compile loop runs
first, and the final array is
`expressionErrors.concat(captured.evaluatedExpressions)`
(v8inspector.ts:506-507). -/
def capturedEvaluatedExpressions (compile : Option (String → Option String))
    (exprs : List String) : List ExprEntry :=
  match compile with
  | none => exprs.map .evaluated
  | some c =>
    let out := compileLoop c 0 exprs
    (out.2.map .compileError) ++ (out.1.map .evaluated)

/-! ## InspectorDebugApi.log: throttling (v8inspector.ts:251-291) -/

/-- The `log.maxLogsPerSecond` and `log.logDelaySeconds` configuration. -/
structure LogConfig where
  maxLogsPerSecond : Nat
  logDelaySeconds : Nat
deriving Repr, DecidableEq

/-- The state of one logpoint listener: the closure variables
`logsThisSecond` and `timesliceEnd` of `log`, the listener `enabled` flag,
the number of `print` calls so far, and the due time of a pending
re-enable timer when the listener has throttled itself. -/
structure LogState where
  enabled : Bool
  logsThisSecond : Nat
  timesliceEnd : Nat
  emits : Nat
  retryAt : Option Nat
deriving Repr, DecidableEq

/-- State right after `log` registers the listener at time `t0`:
`logsThisSecond = 0`, `timesliceEnd = Date.now() + 1000`, listener
enabled. -/
def initLogState (t0 : Nat) : LogState :=
  { enabled := true, logsThisSecond := 0, timesliceEnd := t0 + 1000
    emits := 0, retryAt := none }

/-- The re-enable timer callback (v8inspector.ts:279-286): when due, it
re-enables the listener unless `shouldStop()` now returns true.  Events
due at the same millisecond as a hit run before the hit. -/
def fireTimer (shouldStop : Nat → Bool) (t : Nat) (st : LogState) : LogState :=
  match st.retryAt with
  | some r =>
    if r ≤ t then
      { st with retryAt := none
                enabled := if shouldStop r then st.enabled else true }
    else st
  | none => st

/-- One breakpoint hit delivered to the log listener at time `t`
(v8inspector.ts:260-289).  The listener only runs when enabled
(v8inspector.ts:515).  It resets the one-second window when expired,
prints unconditionally, and then disables itself either permanently
(`shouldStop()`) or until the re-enable timer when the window quota
`maxLogsPerSecond` is reached. -/
def hitStep (cfg : LogConfig) (shouldStop : Nat → Bool) (t : Nat)
    (st : LogState) : LogState :=
  if !st.enabled then st
  else
    let st1 := if t > st.timesliceEnd then
        { st with logsThisSecond := 0, timesliceEnd := t + 1000 }
      else st
    let st2 := { st1 with emits := st1.emits + 1
                          logsThisSecond := st1.logsThisSecond + 1 }
    if shouldStop t then { st2 with enabled := false }
    else if st2.logsThisSecond ≥ cfg.maxLogsPerSecond then
      { st2 with enabled := false
                 retryAt := some (t + cfg.logDelaySeconds * 1000) }
    else st2

/-- Runs the logpoint listener over a chronological list of hit times,
firing any due re-enable timer before each hit. -/
def runLog (cfg : LogConfig) (shouldStop : Nat → Bool) (st : LogState) :
    List Nat → LogState
  | [] => st
  | t :: rest =>
    runLog cfg shouldStop (hitStep cfg shouldStop t (fireTimer shouldStop t st)) rest

/-! ## InspectorDebugApi.clear (v8inspector.ts:209-233) -/

/-- The stored `BreakpointData` slice `clear` uses: its `id` field holds
the low-level (V8) breakpoint id under which the listener is keyed. -/
structure StoredBreakpoint where
  lowLevelId : String
deriving Repr, DecidableEq

/-- The agent state `clear` mutates: `breakpoints` keyed by API breakpoint
id, `listeners` keyed by low-level id, and the `numBreakpoints` counter. -/
structure AgentState where
  breakpoints : List (String × StoredBreakpoint)
  listeners : List (String × Bool)
  numBreakpoints : Int
deriving Repr, DecidableEq

/-- Association-list lookup, first binding wins (JS object property read). -/
def lookupKey (k : String) (l : List (String × α)) : Option α :=
  (l.find? (fun e => e.1 == k)).map (·.2)

/-- Association-list delete (JS `delete obj[k]`). -/
def eraseKey (k : String) (l : List (String × α)) : List (String × α) :=
  l.filter (fun e => !(e.1 == k))

/-- The result shape the sibling `V8Inspector` methods build and return
(`{error?, response?}` filled in by the session callback); `clear` reads
the `error` field from whatever `removeBreakpoint` returned. -/
structure RemoveResult where
  error : Option String
deriving Repr, DecidableEq

/-- Embedding of `V8Inspector.removeBreakpoint` (v8inspector.ts:42-45):
unlike the sibling methods, it builds no result object and posts
`Debugger.removeBreakpoint` without a completion callback, so the call
evaluates to `undefined` — modelled as `none`. -/
def removeBreakpointResult (_ : String) : Option RemoveResult := none

/-- The deferred `setImmediate` body of `clear` (v8inspector.ts:227-232),
run against the value `removeBreakpoint` returned.  On `undefined`,
reading `result.error` throws a TypeError before any callback runs (the
`true` in the second component records the throw).  On a result object,
the missing `else` would run `cb` twice for an error — first `cb(error)`,
then `cb(null)` — and once with `null` otherwise.  Returns the `cb`
invocations made (`some e` is `cb(error)`, `none` is `cb(null)`) and
whether the turn threw. -/
def deferredClearTurn (result : Option RemoveResult) :
    List (Option String) × Bool :=
  match result with
  | none => ([], true)
  | some r =>
    match r.error with
    | some e => ([some e, none], false)
    | none => ([none], false)

/-- Embedding of `InspectorDebugApi.clear` (v8inspector.ts:209-233).
Unknown ids are answered with a `V8_BREAKPOINT_CLEAR_ERROR` callback; for
a stored id, the low-level remove is posted, the stored data and the
listener keyed by the low-level id are deleted and the counter
decremented, and the deferred turn then runs on the (undefined) remove
result. -/
def clearBp (st : AgentState) (bp : Breakpoint) :
    AgentState × (List (Option String) × Bool) :=
  match bp.id with
  | none => (st, ([some "V8_BREAKPOINT_CLEAR_ERROR"], false))
  | some id =>
    match lookupKey id st.breakpoints with
    | none => (st, ([some "V8_BREAKPOINT_CLEAR_ERROR"], false))
    | some bpd =>
      let result := removeBreakpointResult bpd.lowLevelId
      let st' : AgentState :=
        { breakpoints := eraseKey id st.breakpoints
          listeners := eraseKey bpd.lowLevelId st.listeners
          numBreakpoints := st.numBreakpoints - 1 }
      (st', deferredClearTurn result)

/-! ## InspectorDebugApi.handleDebugPausedEvent (v8inspector.ts:511-523) -/

/-- Embedding of the pause-event dispatch.  Returns the id whose listener
is invoked for this event, if any.  When `hitBreakpoints` is absent the
handler returns early; when it is an empty array (truthy in JS) the
indexing `hitBreakpoints[0]` yields `undefined` and the subsequent
`.enabled` read throws, which the surrounding try/catch swallows, so no
listener runs; likewise when no listener is registered under the first
id.  Only the first id of the array is ever consulted. -/
def handleDebugPausedEvent (listeners : String → Option Bool)
    (hitBreakpoints : Option (List String)) : Option String :=
  match hitBreakpoints with
  | none => none
  | some [] => none
  | some (bpId :: _) =>
    match listeners bpId with
    | none => none
    | some enabled => if enabled then some bpId else none

/-! ## The capture engine limits for watch expressions

The capture engine (`state.capture` and its `resolveVariable` family) is
not part of the provided tree; the model below follows the specification:
a shared byte budget initialized to `capture.maxDataSize` is decremented
as children are added, a compound whose next child would overdraw the
budget stops and is marked `Max data size reached`, strings longer than
`capture.maxStringLength` are truncated with a status — except that a
watch-expression value is not truncated and its top-level object is not
limited by `capture.maxProperties`, while interior descendants keep both
limits. -/

/-- The `config.capture` limits the engine consults. -/
structure CaptureLimits where
  maxProperties : Nat
  maxDataSize : Nat
  maxStringLength : Nat
deriving Repr, DecidableEq

/-- A runtime value delivered by the inspector: a primitive rendered as a
string, a string value, or an object with named properties.  The property
chain of an object is folded into the same inductive (`fnil`/`fcons`
spines under an `obj` head) so that the capture recursion below is
structural and therefore evaluates inside the kernel. -/
inductive JsVal where
  | num (s : String)
  | str (s : String)
  | obj (fields : JsVal)
  | fnil
  | fcons (name : String) (v : JsVal) (rest : JsVal)
deriving Repr

/-- A captured Variable: name, rendered value, status description with its
error flag, and member children. -/
inductive CapVar where
  | mk (name : String) (value : Option String) (statusDesc : Option String)
      (isError : Bool) (members : List CapVar)

/-- Name of a captured variable. -/
def CapVar.name : CapVar → String
  | .mk n _ _ _ _ => n

/-- Rendered value of a captured variable. -/
def CapVar.value : CapVar → Option String
  | .mk _ v _ _ _ => v

/-- Status description of a captured variable. -/
def CapVar.statusDesc : CapVar → Option String
  | .mk _ _ s _ _ => s

/-- Error flag of the status of a captured variable. -/
def CapVar.isError : CapVar → Bool
  | .mk _ _ _ e _ => e

/-- Member children of a captured variable. -/
def CapVar.members : CapVar → List CapVar
  | .mk _ _ _ _ m => m

/-- Renames a captured variable (a child takes its property name). -/
def CapVar.withName (n : String) : CapVar → CapVar
  | .mk _ v s e m => .mk n v s e m

/-- Byte cost charged when a child is added: the rendered length of a
scalar, one handle byte for a compound. -/
def fieldCost : JsVal → Nat
  | .num s => s.length
  | .str s => s.length
  | _ => 1

/-- Number of properties on the spine of an object value. -/
def fieldsCount : JsVal → Nat
  | .fcons _ _ rest => fieldsCount rest + 1
  | _ => 0

/-- Modelled from the spec: the capture recursion.  On a value it returns
a singleton list holding the captured variable; on a property spine it
returns the captured children, honoring the child cap and charging
`fieldCost` per added child against the shared byte budget (the third
component reports budget exhaustion, upon which the enclosing compound
stops descending).  `isEvaluated` is true exactly for the top level of a
watch-expression value: there a string is not truncated by
`maxStringLength` and an object takes all its children instead of at most
`maxProperties`; every interior descendant is captured with `isEvaluated`
false.  `cap` is only consulted on spines. -/
def capRun (lim : CaptureLimits) (isEvaluated : Bool) (cap budget : Nat) :
    JsVal → List CapVar × Nat × Bool
  | .num s => ([.mk "" (some s) none false []], budget, false)
  | .str s =>
    if !isEvaluated && decide (lim.maxStringLength < s.length) then
      ([.mk "" (some ((s.take lim.maxStringLength) ++ "..."))
        (some ("Only first " ++ toString lim.maxStringLength ++
          " chars were captured of length " ++ toString s.length))
        false []], budget, false)
    else ([.mk "" (some s) none false []], budget, false)
  | .obj fields =>
    let total := fieldsCount fields
    let itemCap := if isEvaluated then total else min total lim.maxProperties
    let res := capRun lim false itemCap budget fields
    if res.2.2 then
      ([.mk "" none (some "Max data size reached") true res.1], res.2.1, false)
    else if itemCap < total then
      ([.mk "" none none false (res.1 ++
        [.mk ("Only first " ++ toString itemCap ++ " of " ++ toString total ++
          " items (config.capture.maxProperties=" ++ toString itemCap ++ ")")
          none none false []])], res.2.1, false)
    else ([.mk "" none none false res.1], res.2.1, false)
  | .fnil => ([], budget, false)
  | .fcons name v rest =>
    if cap = 0 then ([], budget, false)
    else if budget < fieldCost v then ([], budget, true)
    else
      let r := capRun lim false 0 (budget - fieldCost v) v
      let child := (r.1.headD (.mk "" none none false [])).withName name
      let out := capRun lim false (cap - 1) r.2.1 rest
      (child :: out.1, out.2)

/-- Modelled from the spec: capture of one watch-expression value, entered
with `isEvaluated` set and the shared remaining budget; yields the
captured variable and the remaining budget. -/
def captureWatch (lim : CaptureLimits) (budget : Nat) (v : JsVal) :
    CapVar × Nat :=
  let r := capRun lim true 0 budget v
  (r.1.headD (.mk "" none none false []), r.2.1)

/-! ## The Debuglet expiry loop

The Debuglet source is not part of the provided tree (only its test file
is); the reconciliation and expiry steps below are modelled from the
specification. -/

/-- Modelled from the spec: the Debuglet state relevant to expiry — the
active breakpoint map, the local already-finalized guard, and the log of
`updateBreakpoint` calls issued (each carrying the final
`The snapshot has expired` status). -/
structure DebugletState where
  activeBreakpointMap : List String
  completedBreakpointMap : List String
  updates : List String
deriving Repr, DecidableEq

/-- The empty Debuglet state at startup. -/
def initDebugletState : DebugletState :=
  { activeBreakpointMap := [], completedBreakpointMap := [], updates := [] }

/-- An observable Debuglet step: a poll result listing the server-side
active breakpoint ids, or the expiry timer of one breakpoint firing. -/
inductive DebugletEvent where
  | poll (bps : List String)
  | expire (id : String)
deriving Repr, DecidableEq

/-- Modelled from the spec fetch loop: ids no longer listed are cleared
and dropped without an update; newly listed ids are installed — unless the
local already-finalized guard knows them, in which case the re-appearance
is ignored. -/
def pollStep (st : DebugletState) (bps : List String) : DebugletState :=
  { st with activeBreakpointMap :=
      st.activeBreakpointMap.filter (fun i => bps.contains i) ++
      bps.filter (fun i => !(st.activeBreakpointMap.contains i) &&
        !(st.completedBreakpointMap.contains i)) }

/-- Modelled from the spec expiry step: when the breakpoint is still
active, mark it final, issue the single expiry `updateBreakpoint`, record
it in the finalized guard, and drop it from the active map. -/
def expireStep (st : DebugletState) (id : String) : DebugletState :=
  if st.activeBreakpointMap.contains id then
    { activeBreakpointMap := st.activeBreakpointMap.filter (fun i => !(i == id))
      completedBreakpointMap := id :: st.completedBreakpointMap
      updates := st.updates ++ [id] }
  else st

/-- Runs the Debuglet over a trace of events. -/
def runDebuglet (st : DebugletState) : List DebugletEvent → DebugletState
  | [] => st
  | .poll bps :: rest => runDebuglet (pollStep st bps) rest
  | .expire id :: rest => runDebuglet (expireStep st id) rest

/-! ## Proof devices and concrete fixtures -/

/-- Restatement of the compile loop as a head recursion over the suffix of
the array not yet visited; `compileLoop_eq_sweep` below relates it to
`compileLoop`.  A failed compile records the element and, because the
splice shifts the successor into the visited slot while the loop index
still advances, the successor is kept uncompiled — tracked here by the
`skip` flag. -/
def compileSweep (c : String → Option String) (skip : Bool) :
    List String → List String × List String
  | [] => ([], [])
  | x :: rest =>
    if skip then
      let r := compileSweep c false rest
      (x :: r.1, r.2)
    else
      match c x with
      | some x2 =>
        let r := compileSweep c false rest
        (x2 :: r.1, r.2)
      | none =>
        let r := compileSweep c true rest
        (r.1, x :: r.2)

/-- A scan result with a single known script `fixtures/foo.js`. -/
def findScriptsFoo : String → List String :=
  fun p => if p == "fixtures/foo.js" then ["fixtures/foo.js"] else []

/-- A concrete environment around the known script `fixtures/foo.js` with
a recorded line count of 4, no source maps, a parse function defined on
the empty-statement condition, and a low-level debugger that accepts the
set call. -/
def envFoo : SetEnv :=
  { mapper := ⟨[]⟩
    findScripts := findScriptsFoo
    lines := fun _ => 4
    parse := fun s => if s == ";" then some (.program .emptyStmt) else none
    compiler := none
    moduleWrapPrefixLength := 62
    v8SetOk := true }

/-- A breakpoint on `fixtures/foo.js` at the given line with the given
condition. -/
def bpFoo (n : Nat) (cond : Option String) : Breakpoint :=
  { id := some "fake-id-123"
    location := some { path := "fixtures/foo.js", line := n }
    condition := cond }

/-- A breakpoint literal with every location component explicit. -/
def mkBp (idStr path : String) (line : Nat) (cond : Option String) : Breakpoint :=
  { id := some idStr
    location := some { path := path, line := line }
    condition := cond }

/-- A consumer that reports three generated positions, two of them sharing
the minimal line 5, for the one-based input position (4, 0). -/
def consumerC3 : SourceMapper.Consumer :=
  { allGeneratedPositionsFor := fun l c =>
      if l == 4 && c == 0 then [⟨9, 1⟩, ⟨5, 7⟩, ⟨5, 2⟩] else []
    generatedPositionFor := fun _ _ => ⟨1, 0⟩ }

/-- A mapper with a single registered input file `a.ts`. -/
def mapperC3 : SourceMapper.Mapper :=
  ⟨[("a.ts", { outputFile := "out.js", mapFile := "maps/a.js.map"
               mapConsumer := consumerC3 })]⟩

/-- A compile function that compiles `a` and throws on everything else. -/
def compileAB : String → Option String :=
  fun s => if s == "a" then some "A" else none

/-- Capture limits mirroring the watch-expression tests: a tight
`maxProperties` of 1 and a tight `maxStringLength` of 3 with an ample byte
budget. -/
def limTight : CaptureLimits :=
  { maxProperties := 1, maxDataSize := 20000, maxStringLength := 3 }

/-- Capture limits with a byte budget of 1 and otherwise loose limits. -/
def limTinyBudget : CaptureLimits :=
  { maxProperties := 5, maxDataSize := 1, maxStringLength := 100 }

/-- The array value `A = [1, 2, 3]` as delivered by the inspector: three
elements plus the own-property `length`. -/
def arrA : JsVal :=
  .obj (.fcons "0" (.num "1") (.fcons "1" (.num "2")
    (.fcons "2" (.num "3") (.fcons "length" (.num "3") .fnil))))

/-- An object with a long string property and a numeric property. -/
def objWithString : JsVal :=
  .obj (.fcons "str1" (.str "hello world") (.fcons "n" (.num "5") .fnil))

/-- A watch value whose single property is itself an object with three
properties: its interior children are subject to `maxProperties`. -/
def objNested : JsVal :=
  .obj (.fcons "inner"
    (.obj (.fcons "a" (.num "1") (.fcons "b" (.num "2")
      (.fcons "c" (.num "3") .fnil)))) .fnil)

/-- Agent state with one installed breakpoint `bp1` whose low-level id is
`v8-1` and its listener. -/
def stOneBp : AgentState :=
  { breakpoints := [("bp1", ⟨"v8-1"⟩)]
    listeners := [("v8-1", true)]
    numBreakpoints := 1 }

/-- Listener table with a single enabled listener under id `a`. -/
def listenersA : String → Option Bool :=
  fun s => if s == "a" then some true else none

/-- Invariant tying the update log to the finalized guard for one id: at
most one expiry update is ever issued, none before the id enters the
guard, and a guarded id is never active. -/
def ExpiryInv (id : String) (st : DebugletState) : Prop :=
  st.updates.count id ≤ 1 ∧
  (st.completedBreakpointMap.contains id = false → st.updates.count id = 0) ∧
  (st.completedBreakpointMap.contains id = true →
    st.activeBreakpointMap.contains id = false)

/-! ## Theorems -/

/-- Association-list lookup after deleting the key fails. -/
theorem lookupKey_eraseKey (k : String) (l : List (String × α)) :
    lookupKey k (eraseKey k l) = none := by
  induction l with
  | nil => rfl
  | cons e rest ih =>
    by_cases h : e.1 == k
    · simp only [eraseKey, List.filter, h] at ih ⊢
      exact ih
    · simp only [eraseKey, lookupKey, List.filter, List.find?, h] at ih ⊢
      exact ih

/-- C3: for an unmapped input path `mappingInfo` returns null; for a
mapped path it selects, among the generated positions for the one-based
input location, the earliest one with the smallest line (here `(5, 7)` out
of `(9, 1)`, `(5, 7)`, `(5, 2)`), and converts its line back to zero-based
— but the returned column is `undefined` because the source reads the
nonexistent `col` field of the selected position, not its `column` (7). -/
theorem c3_mapping_column :
    mapperC3.mappingInfo "a.ts" 3 0 =
      some { file := "out.js", line := 4, column := none } ∧
    SourceMapper.reduceMinLine ⟨9, 1⟩ [⟨5, 7⟩, ⟨5, 2⟩] = ⟨5, 7⟩ ∧
    mapperC3.mappingInfo "b.ts" 3 0 = none := by
  refine ⟨?_, by decide, ?_⟩ <;> decide

/-- C4: with `log.maxLogsPerSecond = 1` and `log.logDelaySeconds = 1`, a
logpoint hit every 100 ms for 1.5 s emits exactly twice — the first hit
reaches the window quota and disables the listener, the re-enable timer
restores it one second later, the next delivered hit emits again and
disables it past the end of the scenario — while more than 12 hits were
delivered. -/
theorem c4_log_throttle :
    (runLog ⟨1, 1⟩ (fun _ => false) (initLogState 0)
      ((List.range 14).map (fun k => 100 * (k + 1)))).emits = 2 ∧
    12 < ((List.range 14).map (fun k => 100 * (k + 1))).length := by
  decide

/-- C5: `Debuglet.format` substitutes in-range placeholders (digits read
greedily), keeps out-of-range placeholders as literal text, and unescapes
`$$`: the three specified instances. -/
theorem c5_format :
    Debuglet.format "hi $0 $1 $0" ["5"] = "hi 5 $1 5" ∧
    Debuglet.format "hi $$0" ["5"] = "hi $0" ∧
    Debuglet.format "hi $11"
      ["0", "1", "2", "3", "4", "5", "6", "7", "8", "9", "a", "b", "c", "d"] =
      "hi b" := by
  refine ⟨?_, ?_, ?_⟩ <;>
    simp [Debuglet.format, Debuglet.fmtRun, Debuglet.digitsToNat]

/-- C9 counterexample: clearing the stored breakpoint `bp1` runs no
callback at all — the deferred turn throws a TypeError reading
`result.error` on the `undefined` that `removeBreakpoint` returned — so
`cb` is in particular never invoked with null, contradicting the claim;
the stored data is nevertheless removed. -/
theorem c9_counterexample :
    (clearBp stOneBp ⟨some "bp1", none, none⟩).2.1 = [] ∧
    (clearBp stOneBp ⟨some "bp1", none, none⟩).2.2 = true ∧
    lookupKey "bp1" (clearBp stOneBp ⟨some "bp1", none, none⟩).1.breakpoints =
      none := by
  refine ⟨by decide, by decide, by decide⟩

/-- C9 amended: for every breakpoint id present in the breakpoints map,
`clear(bp, cb)` removes the stored breakpoint data and the listener keyed
by its low-level id and decrements the breakpoint counter, but `cb` is
never invoked: the staged `removeBreakpoint` wrapper posts without a
callback and returns `undefined`, so the deferred callback throws a
TypeError reading `result.error` before any `cb` call — in particular no
error case exists in which `cb` would run twice. -/
theorem c9_clear (st : AgentState) (idStr : String) (bpd : StoredBreakpoint)
    (h : lookupKey idStr st.breakpoints = some bpd) :
    lookupKey idStr (clearBp st ⟨some idStr, none, none⟩).1.breakpoints = none ∧
    lookupKey bpd.lowLevelId
      (clearBp st ⟨some idStr, none, none⟩).1.listeners = none ∧
    (clearBp st ⟨some idStr, none, none⟩).1.numBreakpoints =
      st.numBreakpoints - 1 ∧
    (clearBp st ⟨some idStr, none, none⟩).2.1 = [] ∧
    (clearBp st ⟨some idStr, none, none⟩).2.2 = true := by
  simp [clearBp, h, removeBreakpointResult, deferredClearTurn, lookupKey_eraseKey]

/-- Witness for C9 at the concrete one-breakpoint state. -/
theorem c9_clear_witness :
    lookupKey "bp1" (clearBp stOneBp ⟨some "bp1", none, none⟩).1.breakpoints =
      none ∧
    lookupKey "v8-1" (clearBp stOneBp ⟨some "bp1", none, none⟩).1.listeners =
      none ∧
    (clearBp stOneBp ⟨some "bp1", none, none⟩).1.numBreakpoints =
      stOneBp.numBreakpoints - 1 ∧
    (clearBp stOneBp ⟨some "bp1", none, none⟩).2.1 = [] ∧
    (clearBp stOneBp ⟨some "bp1", none, none⟩).2.2 = true :=
  c9_clear stOneBp "bp1" ⟨"v8-1"⟩ (by decide)

/-- C10: a pause event invokes at most the listener of the first id in
`hitBreakpoints`, and only when that listener is registered and enabled;
an event with absent (or empty) `hitBreakpoints` invokes no listener. -/
theorem c10_paused_dispatch :
    (∀ listeners : String → Option Bool,
      handleDebugPausedEvent listeners none = none) ∧
    (∀ listeners : String → Option Bool,
      handleDebugPausedEvent listeners (some []) = none) ∧
    (∀ (listeners : String → Option Bool) (hbs : Option (List String)) (i : String),
      handleDebugPausedEvent listeners hbs = some i →
      (∃ rest, hbs = some (i :: rest)) ∧ listeners i = some true) := by
  refine ⟨fun _ => rfl, fun _ => rfl, ?_⟩
  intro listeners hbs i h
  match hbs with
  | none => simp [handleDebugPausedEvent] at h
  | some [] => simp [handleDebugPausedEvent] at h
  | some (x :: rest) =>
    simp only [handleDebugPausedEvent] at h
    cases hx : listeners x with
    | none => simp [hx] at h
    | some enabled =>
      cases enabled with
      | false => simp [hx] at h
      | true =>
        simp [hx] at h
        exact ⟨⟨rest, by rw [h]⟩, by rw [← h]; exact hx⟩

/-- Witness for C10 at a two-element `hitBreakpoints` array whose first
listener is enabled. -/
theorem c10_paused_dispatch_witness :
    (∃ rest, (some ["a", "b"] : Option (List String)) = some ("a" :: rest)) ∧
    listenersA "a" = some true :=
  c10_paused_dispatch.2.2 listenersA (some ["a", "b"]) "a" (by decide)

/-- C1 counterexample: in an environment whose only matching script has a
recorded line count of 4, a breakpoint at line 4 — a line not strictly
greater than the line count — is rejected with
`BREAKPOINT_SOURCE_LOCATION`, contradicting the claim that the rejection
happens exactly when the line is strictly greater than the line count. -/
theorem c1_counterexample :
    setBp envFoo (bpFoo 4 none) =
      .err .BREAKPOINT_SOURCE_LOCATION .INVALID_LINE_NUMBER ∧
    envFoo.lines "fixtures/foo.js" = 4 ∧ ¬(4 > 4) := by
  refine ⟨by decide, by decide, by omega⟩

/-- C1 amended: for a breakpoint whose path resolves to exactly one known
script (and whose other validation steps pass), `set` fails with
`BREAKPOINT_SOURCE_LOCATION` for its line number exactly when the line is
greater than or equal to the recorded line count of the matched file; in
particular a line equal to the line count is rejected. -/
theorem c1_line_check (env : SetEnv) (idStr path : String) (line : Nat) (s : String)
    (hmap : env.mapper.hasMappingInfo path = false)
    (hjs : strEndsWith path "js" = true)
    (hne : path.isEmpty = false)
    (hl0 : line ≠ 0)
    (hfs : env.findScripts path = [s])
    (hv8 : env.v8SetOk = true) :
    (setBp env (mkBp idStr path line none) =
      .err .BREAKPOINT_SOURCE_LOCATION .INVALID_LINE_NUMBER) ↔ env.lines s ≤ line := by
  by_cases hline : env.lines s ≤ line
  · simp [setBp, setInternal, mkBp, hmap, hjs, hne, hl0, hfs, hv8, hline]
  · simp [setBp, setInternal, mkBp, hmap, hjs, hne, hl0, hfs, hv8, hline]

/-- Witness for C1 at the concrete environment: line 3 against a line
count of 4. -/
theorem c1_line_check_witness :
    (setBp envFoo (mkBp "fake-id-123" "fixtures/foo.js" 3 none) =
      .err .BREAKPOINT_SOURCE_LOCATION .INVALID_LINE_NUMBER) ↔
      envFoo.lines "fixtures/foo.js" ≤ 3 :=
  c1_line_check envFoo "fake-id-123" "fixtures/foo.js" 3 "fixtures/foo.js"
    (by decide) (by decide) (by decide) (by decide) (by decide) (by decide)

/-- C6 counterexample: a breakpoint whose condition is the string `;` is
accepted, but the literal condition string `;` is passed through to the
low-level `setBreakpointByUrl` call, so the breakpoint is not installed as
unconditional (an unconditional install passes no condition). -/
theorem c6_counterexample :
    setBp envFoo (bpFoo 2 (some ";")) =
      .ok { script := "fixtures/foo.js", lowLevelLine := 1, lowLevelColumn := 0,
            v8Condition := some ";" } ∧
    (some ";" : Option String) ≠ none := by
  refine ⟨by decide, by decide⟩

/-- C6 amended: a breakpoint with a null or empty condition is installed
unconditionally (no condition string reaches the low-level debugger); a
nonempty condition that fails to parse, or whose AST the validator
rejects, fails with `BREAKPOINT_CONDITION`; a nonempty condition that
parses and validates — such as `;`, the empty statement — is accepted,
with the condition string itself installed as the low-level condition. -/
theorem c6_condition_validation (env : SetEnv) (idStr path : String) (line : Nat)
    (s : String)
    (hmap : env.mapper.hasMappingInfo path = false)
    (hjs : strEndsWith path "js" = true)
    (hne : path.isEmpty = false)
    (hl0 : line ≠ 0)
    (hfs : env.findScripts path = [s])
    (hline : line < env.lines s)
    (hv8 : env.v8SetOk = true) :
    (∃ inst, setBp env (mkBp idStr path line none) = .ok inst ∧
      inst.v8Condition = none) ∧
    (∃ inst, setBp env (mkBp idStr path line (some "")) = .ok inst ∧
      inst.v8Condition = none) ∧
    (∀ c, c.isEmpty = false → env.parse c = none →
      setBp env (mkBp idStr path line (some c)) =
        .err .BREAKPOINT_CONDITION .SYNTAX_ERROR_IN_CONDITION) ∧
    (∀ c a, c.isEmpty = false → env.parse c = some a → isValid a = false →
      setBp env (mkBp idStr path line (some c)) =
        .err .BREAKPOINT_CONDITION .DISALLOWED_EXPRESSION) ∧
    (∀ c a, c.isEmpty = false → env.parse c = some a → isValid a = true →
      ∃ inst, setBp env (mkBp idStr path line (some c)) = .ok inst ∧
        inst.v8Condition = some c) := by
  have hnotle : ¬ env.lines s ≤ line := by omega
  have hemp : ("" : String).isEmpty = true := by decide
  refine ⟨?_, ?_, ?_, ?_, ?_⟩
  · simp [setBp, setInternal, mkBp, hmap, hjs, hne, hl0, hfs, hv8, hnotle, strTruthy]
  · simp [setBp, setInternal, mkBp, hmap, hjs, hne, hl0, hfs, hv8, hnotle, strTruthy,
      hemp]
  · intro c hc hp
    simp [setBp, setInternal, mkBp, hmap, hjs, hne, hl0, hfs, hv8, hnotle, hc, hp]
  · intro c a hc hp hval
    simp [setBp, setInternal, mkBp, hmap, hjs, hne, hl0, hfs, hv8, hnotle, hc, hp, hval]
  · intro c a hc hp hval
    simp [setBp, setInternal, mkBp, hmap, hjs, hne, hl0, hfs, hv8, hnotle, hc, hp, hval,
      strTruthy]

/-- Witness for C6: the empty-statement condition `;` at the concrete
environment is accepted with `;` installed as the low-level condition. -/
theorem c6_condition_validation_witness :
    ∃ inst, setBp envFoo (mkBp "fake-id-123" "fixtures/foo.js" 2 (some ";")) =
      .ok inst ∧ inst.v8Condition = some ";" :=
  ((c6_condition_validation envFoo "fake-id-123" "fixtures/foo.js" 2 "fixtures/foo.js"
    (by decide) (by decide) (by decide) (by decide) (by decide) (by decide)
    (by decide)).2.2.2.2) ";" (.program .emptyStmt) (by decide) (by decide) (by decide)

/-- The sweep preserves the total number of array slots: final expressions
plus recorded failures amount to the input length. -/
theorem compileSweep_length (c : String → Option String) :
    ∀ (l : List String) (skip : Bool),
      (compileSweep c skip l).1.length + (compileSweep c skip l).2.length = l.length := by
  intro l
  induction l with
  | nil => intro skip; simp [compileSweep]
  | cons x rest ih =>
    intro skip
    cases skip with
    | true =>
      have h := ih false
      simp [compileSweep]
      omega
    | false =>
      cases hc : c x with
      | some x2 =>
        have h := ih false
        simp [compileSweep, hc]
        omega
      | none =>
        have h := ih true
        simp [compileSweep, hc]
        omega

/-- When every expression compiles, the sweep records no failure and
replaces each slot in place, preserving order. -/
theorem compileSweep_all (c : String → Option String) :
    ∀ (l : List String), (∀ e ∈ l, (c e).isSome) →
      compileSweep c false l = (l.map (fun e => (c e).getD e), []) := by
  intro l
  induction l with
  | nil => intro _; simp [compileSweep]
  | cons x rest ih =>
    intro hall
    have hx := hall x (by simp)
    obtain ⟨x2, hc⟩ := Option.isSome_iff_exists.mp hx
    have hr := ih (fun e he => hall e (by simp [he]))
    simp [compileSweep, hc, hr]

/-- The indexed compile loop of `captureBreakpointData` agrees with the
sweep over the unvisited suffix: the first `i` slots are left as they are,
and the loop result is the sweep of the rest. -/
theorem compileLoop_eq_sweep (c : String → Option String) :
    ∀ (n i : Nat) (exprs : List String), exprs.length ≤ i + n →
      compileLoop c i exprs =
        (exprs.take i ++ (compileSweep c false (exprs.drop i)).1,
         (compileSweep c false (exprs.drop i)).2) := by
  intro n
  induction n with
  | zero =>
    intro i exprs h
    have hni : ¬ i < exprs.length := by omega
    have hdrop : exprs.drop i = [] := List.drop_eq_nil_of_le (by omega)
    have htake : exprs.take i = exprs := List.take_of_length_le (by omega)
    rw [compileLoop]
    simp [hni, hdrop, htake, compileSweep]
  | succ n ih =>
    intro i exprs h
    by_cases hlt : i < exprs.length
    case neg =>
      have hdrop : exprs.drop i = [] := List.drop_eq_nil_of_le (by omega)
      have htake : exprs.take i = exprs := List.take_of_length_le (by omega)
      rw [compileLoop]
      simp [hlt, hdrop, htake, compileSweep]
    case pos =>
      have hdrop : exprs.drop i = exprs[i] :: exprs.drop (i + 1) :=
        List.drop_eq_getElem_cons hlt
      have htakelen : (exprs.take i).length = i := by
        simp [List.length_take]
        omega
      rw [compileLoop, dif_pos hlt]
      cases hc : c (exprs.get ⟨i, hlt⟩) with
      | some x2 =>
        simp only [hc]
        rw [ih (i + 1) (exprs.set i x2) (by simp [List.length_set]; omega)]
        have h2 : (exprs.set i x2).drop (i + 1) = exprs.drop (i + 1) :=
          List.drop_set_of_lt x2 exprs (Nat.lt_succ_self i)
        have h1 : (exprs.set i x2).take (i + 1) = exprs.take i ++ [x2] := by
          rw [List.set_eq_take_cons_drop x2 hlt,
            show i + 1 = (exprs.take i).length + 1 by omega,
            List.take_append]
          simp
        rw [h1, h2, hdrop]
        have hc2 : c exprs[i] = some x2 := hc
        simp [compileSweep, hc2]
      | none =>
        simp only [hc]
        rw [ih (i + 1) (exprs.eraseIdx i)
          (by have := List.length_eraseIdx_of_lt hlt; omega)]
        have herase : exprs.eraseIdx i = exprs.take i ++ exprs.drop (i + 1) :=
          List.eraseIdx_eq_take_drop_succ exprs i
        have hc2 : c exprs[i] = none := hc
        have hget : exprs.get ⟨i, hlt⟩ = exprs[i] := rfl
        cases hrest : exprs.drop (i + 1) with
        | nil =>
          have h1 : (exprs.eraseIdx i).take (i + 1) = exprs.take i := by
            rw [herase, hrest,
              show i + 1 = (exprs.take i).length + 1 by omega,
              List.take_append]
            simp
          have h2 : (exprs.eraseIdx i).drop (i + 1) = [] := by
            rw [herase, hrest,
              show i + 1 = (exprs.take i).length + 1 by omega,
              List.drop_append]
            simp
          rw [h1, h2, hdrop, hrest, hget]
          simp [compileSweep, hc2]
        | cons y rest2 =>
          have h1 : (exprs.eraseIdx i).take (i + 1) = exprs.take i ++ [y] := by
            rw [herase, hrest,
              show i + 1 = (exprs.take i).length + 1 by omega,
              List.take_append]
            simp
          have h2 : (exprs.eraseIdx i).drop (i + 1) = rest2 := by
            rw [herase, hrest,
              show i + 1 = (exprs.take i).length + 1 by omega,
              List.drop_append]
            simp
          rw [h1, h2, hdrop, hrest, hget]
          simp [compileSweep, hc2]

/-- C2 counterexample: with a transpiling breakpoint (compile function
attached), the expressions `[a, b]` where `a` compiles and `b` throws
yield `evaluatedExpressions = [error(b), value(A)]`: slot 0 holds the
error entry of expression `b`, not an entry for expression `a`, so the
input order is not preserved. -/
theorem c2_counterexample :
    capturedEvaluatedExpressions (some compileAB) ["a", "b"] =
      [.compileError "b", .evaluated "A"] ∧
    capturedEvaluatedExpressions (some compileAB) ["a", "b"] ≠
      [.evaluated "A", .compileError "b"] := by
  constructor <;> simp [capturedEvaluatedExpressions, compileLoop, compileAB]

/-- C2 amended: `evaluatedExpressions` always has length equal to
`expressions.length` and no failing expression halts evaluation of the
rest, but entries for expressions that fail to compile are placed in
front of the remaining evaluations; input order is preserved when every
expression compiles (and always when no compile function is attached). -/
theorem c2_order_and_length (c : String → Option String) (exprs : List String) :
    (capturedEvaluatedExpressions (some c) exprs).length = exprs.length ∧
    ((∀ e ∈ exprs, (c e).isSome) →
      capturedEvaluatedExpressions (some c) exprs =
        exprs.map (fun e => .evaluated ((c e).getD e))) ∧
    capturedEvaluatedExpressions none exprs = exprs.map .evaluated := by
  have hb := compileLoop_eq_sweep c exprs.length 0 exprs (by omega)
  simp only [List.take_zero, List.drop_zero, List.nil_append] at hb
  refine ⟨?_, ?_, rfl⟩
  · have hlen := compileSweep_length c exprs false
    simp [capturedEvaluatedExpressions, hb]
    omega
  · intro hall
    have hs := compileSweep_all c exprs hall
    simp [capturedEvaluatedExpressions, hb, hs, List.map_map]

/-- Witness for C2 on a singleton expression list that compiles. -/
theorem c2_order_and_length_witness :
    capturedEvaluatedExpressions (some compileAB) ["a"] =
      ["a"].map (fun e => ExprEntry.evaluated ((compileAB e).getD e)) :=
  (c2_order_and_length compileAB ["a"]).2.1 (by decide)

/-- C7: a watch-expression string value is never truncated to
`maxStringLength`; the top-level object of a watch value emits all its
children even past `maxProperties` and carries no status; an interior
descendant object is capped at `maxProperties` children plus the
truncation marker, and an interior string is truncated; a watch value
whose capture overdraws the shared `maxDataSize` byte budget is marked
with the error status `Max data size reached`. -/
theorem c7_watch_limits :
    (∀ (lim : CaptureLimits) (budget : Nat) (s : String),
      (captureWatch lim budget (.str s)).1.value = some s) ∧
    (captureWatch limTight 20000 arrA).1.members.length = 4 ∧
    (captureWatch limTight 20000 arrA).1.statusDesc = none ∧
    ((captureWatch limTight 20000 objNested).1.members.headD
      (.mk "" none none false [])).members.length = 2 ∧
    ((captureWatch limTight 20000 objWithString).1.members.headD
      (.mk "" none none false [])).value = some "hel..." ∧
    (captureWatch limTinyBudget 1 arrA).1.statusDesc = some "Max data size reached" ∧
    (captureWatch limTinyBudget 1 arrA).1.isError = true := by
  refine ⟨?_, by decide, by decide, by decide, by decide, by decide, by decide⟩
  intro lim budget s
  simp [captureWatch, capRun, CapVar.value]

/-- A false `contains` is exactly non-membership. -/
theorem contains_false_iff (l : List String) (a : String) :
    l.contains a = false ↔ a ∉ l := by
  rw [← Bool.not_eq_true]
  exact not_congr List.elem_iff

/-- A poll result never touches the update log and never reactivates an
id held by the finalized guard. -/
theorem pollStep_expiryInv (id : String) (st : DebugletState) (bps : List String)
    (h : ExpiryInv id st) : ExpiryInv id (pollStep st bps) := by
  obtain ⟨h1, h2, h3⟩ := h
  refine ⟨h1, h2, ?_⟩
  intro hc
  have hact : st.activeBreakpointMap.contains id = false := h3 hc
  rw [contains_false_iff] at hact ⊢
  simp only [pollStep, List.mem_append, List.mem_filter]
  rintro (⟨hm, _⟩ | ⟨_, hq⟩)
  · exact hact hm
  · have hc2 : st.completedBreakpointMap.contains id = true := hc
    simp only [Bool.and_eq_true, Bool.not_eq_true', contains_false_iff] at hq
    exact hq.2 (List.elem_iff.mp hc2)

/-- An expiry timer issues the single update for its id only out of the
active state, and moves the id into the finalized guard. -/
theorem expireStep_expiryInv (id id2 : String) (st : DebugletState)
    (h : ExpiryInv id st) : ExpiryInv id (expireStep st id2) := by
  obtain ⟨h1, h2, h3⟩ := h
  by_cases hact : st.activeBreakpointMap.contains id2 = true
  case neg =>
    have : st.activeBreakpointMap.contains id2 = false := by
      cases hcc : st.activeBreakpointMap.contains id2
      · rfl
      · exact absurd hcc hact
    simp only [expireStep, this]
    exact ⟨h1, h2, h3⟩
  case pos =>
    simp only [expireStep, hact, if_true]
    by_cases hid : id2 = id
    · subst hid
      have hcf : st.completedBreakpointMap.contains id2 = false := by
        cases hcc : st.completedBreakpointMap.contains id2
        · rfl
        · rw [h3 hcc] at hact
          exact absurd hact (by simp)
      have hc0 : st.updates.count id2 = 0 := h2 hcf
      refine ⟨?_, ?_, ?_⟩
      · simp [List.count_append, hc0]
      · intro hcontr
        exact absurd hcontr (by simp)
      · intro _
        rw [contains_false_iff]
        simp [List.mem_filter]
    · have hbeq : (id2 == id) = false := by simp [hid]
      refine ⟨?_, ?_, ?_⟩
      · simpa [List.count_append, List.count_cons, hbeq] using h1
      · intro hcf
        have hcompleted : st.completedBreakpointMap.contains id = false := by
          rw [contains_false_iff] at hcf ⊢
          intro hm
          exact hcf (by simp [hm])
        simpa [List.count_append, List.count_cons, hbeq] using h2 hcompleted
      · intro hct
        have hcc : st.completedBreakpointMap.contains id = true := by
          rcases List.mem_cons.mp (List.elem_iff.mp hct) with hh | hh
          · exact absurd hh.symm hid
          · exact List.elem_iff.mpr hh
        have hactive := h3 hcc
        rw [contains_false_iff] at hactive ⊢
        simp only [List.mem_filter]
        rintro ⟨hm, _⟩
        exact hactive hm

/-- The expiry invariant is preserved along any event trace. -/
theorem runDebuglet_expiryInv (id : String) :
    ∀ (evs : List DebugletEvent) (st : DebugletState),
      ExpiryInv id st → ExpiryInv id (runDebuglet st evs) := by
  intro evs
  induction evs with
  | nil => intro st h; exact h
  | cons e rest ih =>
    intro st h
    cases e with
    | poll bps => exact ih _ (pollStep_expiryInv id st bps h)
    | expire id2 => exact ih _ (expireStep_expiryInv id id2 st h)

/-- C8: along every event trace from startup, at most one
`updateBreakpoint` is ever issued per breakpoint id, and in the concrete
expired-then-still-listed scenario — install, expire, then four further
polls re-listing the breakpoint — exactly one update (the expiry one) is
issued for it. -/
theorem c8_expire_once :
    (∀ (evs : List DebugletEvent) (id : String),
      (runDebuglet initDebugletState evs).updates.count id ≤ 1) ∧
    (runDebuglet initDebugletState
      [.poll ["test"], .expire "test", .poll ["test"], .poll ["test"],
       .poll ["test"], .poll ["test"]]).updates = ["test"] := by
  constructor
  · intro evs id
    have hinv : ExpiryInv id initDebugletState := by
      refine ⟨by simp [initDebugletState], fun _ => by simp [initDebugletState],
        fun hcontr => ?_⟩
      simp [initDebugletState] at hcontr
    exact (runDebuglet_expiryInv id evs initDebugletState hinv).1
  · decide

end CloudDebug
